import Mathlib

/-!
# Verification of the md6 crate (Rust FFI bindings over the MD6 reference code)

The repository's `src/lib.rs` exposes a one-shot `hash` function and an
incremental `Md6` state (`new` / `update` / `finalise`, plus an `io::Write`
adapter) over the MD6 reference implementation, which the build script links
from `ext/md6/*.c` (files not shipped under `src/`).  `src/native.rs` declares
the NIST-API entry points `MD6_Hash_Init`, `MD6_Hash_Update`, `MD6_Hash_Final`
and `MD6_Hash_Hash`.

The Rust layer is embedded directly from `src/lib.rs`.  The MD6 engine itself
(`ext/md6/md6_mode.c`, `md6_compress.c`, `md6_nist.c`) is absent from `src/`,
so it is modelled from the spec: the spec describes the tree-mode scheduler
(levels, cascading compression, padding, final/root flag, trimming to the
requested bit length) and directs implementers to the published MD6
specification for the bit-exact control-word, padding and compression layout.
The model below follows that published definition, restricted to the
byte-aligned, keyless, default-parameter (`L = 64`) surface that the Rust
bindings expose.  Its fidelity is confirmed below by reproducing, bit for bit,
every known-answer digest quoted in the crate's own doc-tests.

Machine words are `Nat` values kept below `2 ^ 64`, with explicit `% 2 ^ 64`
where C's `uint64_t` arithmetic wraps.
-/

namespace Md6

/-- The modulus `2 ^ 64` of the 64-bit machine words used throughout MD6. -/
def wordMod : Nat := 2 ^ 64

/-- Modelled from the spec: the compression primitive's initial feedback
constant `S0` (published MD6 definition; `md6_compress.c` is not in `src/`). -/
def sZero : Nat := 0x0123456789abcdef

/-- Modelled from the spec: the feedback-constant evolution mask `S*`
(published MD6 definition). -/
def sMask : Nat := 0x7311c2812425cfa0

/-- Modelled from the spec: the 15-word constant `Q` (fractional part of
`sqrt 6`), the fixed prefix of every compression input block. -/
def qConst : List Nat :=
  [0x7311c2812425cfa0, 0x6432286434aac8e7, 0xb60450e9ef68b7c1, 0xe8fb23908d9f06f1,
   0xdd2e76cba691e5bf, 0x0cd0d63b2c30bc41, 0x1f8ccf6823058f8a, 0x54e5ed5b88e3775d,
   0x4ad12aae0a6d6031, 0x3e7f16bb88222e0d, 0x8af8671d3fb50c2c, 0x995ad1178bd25c31,
   0xc878c1dd04c4b633, 0x3b72066c7a1552ac, 0x0d6f3522631effcb]

/-- Modelled from the spec: the per-step right/left shift amounts of the
compression function's 16-step round (published MD6 definition, `w = 64`). -/
def shiftTable : List (Nat × Nat) :=
  [(10, 11), (5, 24), (13, 9), (10, 16), (11, 15), (12, 9), (2, 27), (7, 15),
   (14, 6), (15, 2), (7, 29), (13, 8), (11, 15), (7, 5), (6, 31), (12, 9)]

/-- The compression recurrence only ever reads the 89 most recent words of
its working array, so the array is carried as one natural number — a sliding
window of 89 64-bit words, the most recent word in the lowest bits.  This is
`2 ^ (64 * 89)`, the window's modulus. -/
def winMod : Nat := wordMod ^ 89

/-- The word `t` positions back from the write position of window `W`
(tap `t` of the recurrence). -/
def winGet (W t : Nat) : Nat := (W >>> (64 * (t - 1))) % wordMod

/-- Slide window `W` one word, entering `x` as the most recent word. -/
def winPush (W x : Nat) : Nat := ((W <<< 64) ||| x) % winMod

/-- Modelled from the spec: one step of the compression function's feedback
recurrence with taps `t0 .. t5 = 17, 18, 21, 31, 67, 89` and the step's
right/left shift pair, yielding the newly computed word. -/
def md6_step (S rs ls W : Nat) : Nat :=
  let x0 := S ^^^ winGet W 89 ^^^ winGet W 17 ^^^
            (winGet W 18 &&& winGet W 21) ^^^ (winGet W 31 &&& winGet W 67)
  let x1 := x0 ^^^ (x0 >>> rs)
  x1 ^^^ ((x1 <<< ls) % wordMod)

/-- Modelled from the spec: one 16-step round of the compression function. -/
def md6_round (S W : Nat) : Nat :=
  shiftTable.foldl (fun acc p => winPush acc (md6_step S p.1 p.2 acc)) W

/-- Modelled from the spec: evolution of the round constant `S`. -/
def sNext (S : Nat) : Nat := ((S <<< 1) % wordMod) ^^^ (S >>> 63) ^^^ (S &&& sMask)

/-- Continuation applied to a forced `Nat`: matching on the constructors
makes definitional evaluation reduce `n` to a numeral before continuing, so
long evaluation chains run iteratively instead of building thunk towers. -/
def forceNat {α : Sort u} : Nat → (Nat → α) → α
  | 0, k => k 0
  | n + 1, k => k (n + 1)

/-- Modelled from the spec: the `r`-round main compression loop. -/
def md6_loop : Nat → Nat → Nat → Nat
  | 0, _, W => W
  | r + 1, S, W =>
    forceNat (md6_round S W) fun Wn => forceNat (sNext S) fun Sn => md6_loop r Sn Wn

/-- Modelled from the spec: the MD6 compression primitive.  Takes the packed
89-word input block `N` and the round count `r`; yields the 16-word chaining
value (the last 16 words computed, oldest first). -/
def md6_compress (N : List Nat) (r : Nat) : List Nat :=
  let W := md6_loop r sZero (N.foldl (fun acc x => acc * wordMod + x) 0)
  (List.range 16).map fun j => winGet W (16 - j)

/-- Modelled from the spec: the unique node identifier word
`U = ell << 56 | i` (level number and node index at that level). -/
def packU (ell i : Nat) : Nat := ((ell <<< 56) % wordMod) ||| (i % wordMod)

/-- Modelled from the spec: the control word
`V = r‖L‖z‖p‖keylen‖d` encoding round count, level bound, the final/root
flag `z`, the pad-bit count `p`, the key length and the digest bit length. -/
def packV (r L z p keylen d : Nat) : Nat :=
  ((r <<< 48) ||| (L <<< 40) ||| (z <<< 36) ||| (p <<< 20) ||| (keylen <<< 12) ||| d)
    % wordMod

/-- Modelled from the spec: packing of a compression input block:
`Q ++ K ++ U ++ V ++ B`, with the 64 data words zero-padded. -/
def md6_pack (K : List Nat) (ell i r L z p keylen d : Nat) (B : List Nat) : List Nat :=
  qConst ++ K ++ [packU ell i, packV r L z p keylen d] ++
    (B ++ List.replicate 64 0).take 64

/-- Big-endian word from a byte list. -/
def word_of_bytes (bs : List Nat) : Nat := bs.foldl (fun a c => a * 256 + c % 256) 0

/-- The 64 data words of a leaf block: the buffered message bytes, zero-padded
to 512 bytes, read as big-endian 64-bit words. -/
def leafWords (bytes : List Nat) : List Nat :=
  (List.range 64).map fun j => word_of_bytes (((bytes ++ List.replicate 512 0).drop (8 * j)).take 8)

/-- Big-endian byte expansion of one 64-bit word. -/
def bytes_of_word (x : Nat) : List Nat := (List.range 8).map fun j => (x >>> (8 * (7 - j))) % 256

/-- Big-endian byte expansion of a word list. -/
def bytes_of_words (ws : List Nat) : List Nat := (ws.map bytes_of_word).flatten

/-- Modelled from the spec: the incremental hashing state (`md6_state` of the
reference engine, as described by the spec's HashState/Level data model).
Level 1 buffers raw message bytes (`B1`); levels `2 .. 28` buffer chaining
words (`Bp`, index `ell - 2`).  `ifor` holds the per-level node indices for
levels `1 .. 28`. -/
structure State where
  d : Nat
  r : Nat
  L : Nat
  keylen : Nat
  K : List Nat
  B1 : List Nat
  Bp : List (List Nat)
  ifor : List Nat
  top : Nat
  bits_processed : Nat
  compression_calls : Nat
  hashval : List Nat
  is_init : Bool
  is_final : Bool
deriving Repr, DecidableEq

/-- Modelled from the spec: the zeroed state created by `init` for digest
length `d` bits — `top = 1`, all buffers empty, default parameters
`r = 40 + d / 4`, `L = 64`, empty key. -/
def initState (d : Nat) : State :=
  { d := d, r := 40 + d / 4, L := 64, keylen := 0, K := List.replicate 8 0,
    B1 := [], Bp := List.replicate 27 [], ifor := List.replicate 28 0,
    top := 1, bits_processed := 0, compression_calls := 0,
    hashval := List.replicate 128 0, is_init := true, is_final := false }

/-- Bits currently buffered at a level (8 per byte at the leaf, 64 per word
above it). -/
def levelBits (st : State) (ell : Nat) : Nat :=
  if ell = 1 then 8 * st.B1.length else 64 * (st.Bp.getD (ell - 2) []).length

/-- Modelled from the spec: compress the block buffered at level `ell` with
final/root flag `z`.  Levels at or above the stack bound (28) fail with the
engine's stack-overflow status 7.  On success yields the 16-word chaining
value and the state with that level cleared and its node index advanced. -/
def compressBlock (st : State) (ell z : Nat) : Nat × List Nat × State :=
  if 28 ≤ ell then (7, [], st)
  else
    let p := 4096 - levelBits st ell
    let B := if ell = 1 then leafWords st.B1 else st.Bp.getD (ell - 2) []
    let N := md6_pack st.K ell (st.ifor.getD (ell - 1) 0) st.r st.L z p st.keylen st.d B
    let C := md6_compress N st.r
    (0, C,
      { st with
        compression_calls := st.compression_calls + 1,
        ifor := st.ifor.set (ell - 1) (st.ifor.getD (ell - 1) 0 + 1),
        B1 := if ell = 1 then [] else st.B1,
        Bp := if ell = 1 then st.Bp else st.Bp.set (ell - 2) [] })

/-- Append a 16-word chaining value to a level's buffer (at the leaf it lands
as the raw little-endian bytes the reference engine would store; reachable
only in sequential mode `L = 0`, which the bindings never select). -/
def appendLevel (st : State) (ell : Nat) (C : List Nat) : State :=
  if ell ≤ 1 then { st with B1 := st.B1 ++ (C.map fun x => (bytes_of_word x).reverse).flatten }
  else { st with Bp := st.Bp.set (ell - 2) (st.Bp.getD (ell - 2) [] ++ C) }

/-- Install the 16 zero words of the sequential-mode IV at a level (reachable
only with `L = 0`; modelled for completeness). -/
def setIV (st : State) (ell : Nat) : State :=
  if ell ≤ 1 then { st with B1 := List.replicate 128 0 }
  else { st with Bp := st.Bp.set (ell - 2) (List.replicate 16 0) }

/-- The level a non-root chaining value cascades into: the next level up,
capped at the sequential level `L + 1`. -/
def procNext (st : State) (ell : Nat) : Nat := min (ell + 1) (st.L + 1)

/-- Deliver a freshly produced chaining value `C` from level `ell` into its
parent level: install the sequential-mode IV if the parent is a virgin
sequential node, append `C`, and advance `top` if a new level became
active. -/
def procCascade (st : State) (ell : Nat) (C : List Nat) : State :=
  let st2 := if procNext st ell = st.L + 1 ∧ st.ifor.getD (procNext st ell - 1) 0 = 0 ∧
                levelBits st (procNext st ell) = 0
             then setIV st (procNext st ell) else st
  let st3 := appendLevel st2 (procNext st ell) C
  { st3 with top := max st3.top (procNext st ell) }

/-- The final/root flag of a compression: set exactly when finalising the top
level. -/
def procZ (st : State) (ell : Nat) (fin : Bool) : Nat :=
  if fin ∧ ell = st.top then 1 else 0

/-- The condition under which a finalising drain skips compressing a level:
it is the top level and holds exactly one chaining value (with the sequential
variant requiring a previous compression at that level). -/
def procSkip (st : State) (ell : Nat) (fin : Bool) : Prop :=
  fin ∧ ell = st.top ∧
    ((ell = st.L + 1 ∧ levelBits st ell = 1024 ∧ 0 < st.ifor.getD (ell - 1) 0) ∨
     (ell ≠ st.L + 1 ∧ 1 < ell ∧ levelBits st ell = 1024))

instance (st : State) (ell : Nat) (fin : Bool) : Decidable (procSkip st ell fin) := by
  unfold procSkip; infer_instance

/-- Modelled from the spec: the scheduler's cascading compression.  A non-full
level is left alone unless finalising; at finalisation a top level holding
exactly one chaining value needs no further compression; otherwise the level
is compressed (with the root flag `z = 1` exactly when finalising the top
level), the root chaining value is recorded as the 128 big-endian bytes of
`hashval`, and non-root outputs cascade into the parent level.  The fuel
argument bounds the recursion; 30 exceeds the 28-level stack, and exhaustion
reports the same status 7 as a stack overflow. -/
def process : Nat → State → Nat → Bool → Nat × State
  | 0, st, _, _ => (7, st)
  | fuel + 1, st, ell, fin =>
    if ¬fin ∧ levelBits st ell < 4096 then (0, st)
    else if procSkip st ell fin then (0, st)
    else if (compressBlock st ell (procZ st ell fin)).1 ≠ 0 then
      ((compressBlock st ell (procZ st ell fin)).1, (compressBlock st ell (procZ st ell fin)).2.2)
    else if procZ st ell fin = 1 then
      (0, { (compressBlock st ell (procZ st ell fin)).2.2 with
            hashval := bytes_of_words (compressBlock st ell (procZ st ell fin)).2.1 })
    else
      process fuel
        (procCascade (compressBlock st ell (procZ st ell fin)).2.2 ell
          (compressBlock st ell (procZ st ell fin)).2.1)
        (procNext (compressBlock st ell (procZ st ell fin)).2.2 ell) fin

/-- Append one message byte to the leaf buffer, counting its 8 bits. -/
def appendByte (st : State) (c : Nat) : State :=
  { st with B1 := st.B1 ++ [c % 256], bits_processed := st.bits_processed + 8 }

/-- One byte of `update`: compress the leaf first if it is full (the engine
defers compressing a just-filled leaf block until more input arrives), then
buffer the byte.  Errors freeze the accumulator, as the engine returns
immediately. -/
def updStep (acc : Nat × State) (c : Nat) : Nat × State :=
  if acc.1 ≠ 0 then acc
  else if (process 30 acc.2 1 false).1 ≠ 0 then process 30 acc.2 1 false
  else (0, appendByte (process 30 acc.2 1 false).2 c)

/-- Modelled from the spec: the engine's `update`, byte-granular form of the
reference's portion loop (the bindings only ever supply whole bytes). -/
def md6_update (st : State) (data : List Nat) : Nat × State :=
  if st.is_init = false then (5, st) else data.foldl updStep (0, st)

/-- The level the final drain starts from: the lowest non-empty level, level 1
when only it is active. -/
def scanNonEmpty (st : State) : Nat :=
  match (List.range' 1 st.top).find? (fun ell => 0 < levelBits st ell) with
  | some ell => ell
  | none => st.top + 1

/-- Modelled from the spec: trimming of the 128-byte root chaining value to
the requested `d` bits — the last `⌈d / 8⌉` bytes, shifted left within bytes
when `d` is not a multiple of 8. -/
def trimDigest (hv : List Nat) (d : Nat) : List Nat :=
  if d % 8 = 0 then hv.drop (128 - (d + 7) / 8)
  else (List.range (hv.drop (128 - (d + 7) / 8)).length).map fun i =>
    (((hv.drop (128 - (d + 7) / 8)).getD i 0 <<< (8 - d % 8)) % 256) |||
    ((hv.drop (128 - (d + 7) / 8)).getD (i + 1) 0 >>> (d % 8))

/-- The level the final drain starts from: level 1 when only it is active,
otherwise the lowest non-empty level. -/
def finalLevel (st : State) : Nat := if st.top = 1 then 1 else scanNonEmpty st

/-- Modelled from the spec: the engine's `final` — drain the stack bottom-up
from the lowest non-empty level, then emit the trimmed digest.  A second call
on a finalised state reports success without writing any bytes. -/
def md6_final (st : State) : Nat × State × List Nat :=
  if st.is_init = false then (5, st, [])
  else if st.is_final then (0, st, [])
  else if (process 30 st (finalLevel st) true).1 ≠ 0 then
    ((process 30 st (finalLevel st) true).1, (process 30 st (finalLevel st) true).2, [])
  else (0, { (process 30 st (finalLevel st) true).2 with is_final := true },
        trimDigest ((process 30 st (finalLevel st) true).2).hashval
          ((process 30 st (finalLevel st) true).2).d)

/-- Modelled from the spec: the engine's `init` — accepts exactly
`1 ≤ d ≤ 512`, rejecting anything else with status 2 (bad hash length). -/
def md6_init (d : Int) : Nat × State :=
  if 1 ≤ d ∧ d ≤ 512 then (0, initState d.toNat) else (2, initState 0)


/-! ## The NIST-API entry points declared in `src/native.rs` -/

/-- Binding `MD6_Hash_Init` (declared in `src/native.rs`): engine `init`, returning
the status code and the initialised state. -/
def MD6_Hash_Init (hashbitlen : Int) : Nat × State := md6_init hashbitlen

/-- Binding `MD6_Hash_Update` (declared in `src/native.rs`): engine `update` over the
first `databitlen` bits of `data`; the bindings only ever pass whole bytes. -/
def MD6_Hash_Update (st : State) (data : List Nat) (databitlen : Nat) : Nat × State :=
  md6_update st (data.take (databitlen / 8))

/-- Binding `MD6_Hash_Final` (declared in `src/native.rs`): engine `final`, returning
the status code, the finalised state and the digest bytes written. -/
def MD6_Hash_Final (st : State) : Nat × State × List Nat := md6_final st

/-- Binding `MD6_Hash_Hash` (declared in `src/native.rs`): `Init`, one `Update`, then
`Final`; any non-zero status aborts and is returned, with no bytes written. -/
def MD6_Hash_Hash (hashbitlen : Int) (data : List Nat) (databitlen : Nat) :
    Nat × List Nat :=
  if (MD6_Hash_Init hashbitlen).1 ≠ 0 then ((MD6_Hash_Init hashbitlen).1, [])
  else if (MD6_Hash_Update (MD6_Hash_Init hashbitlen).2 data databitlen).1 ≠ 0 then
    ((MD6_Hash_Update (MD6_Hash_Init hashbitlen).2 data databitlen).1, [])
  else
    ((MD6_Hash_Final (MD6_Hash_Update (MD6_Hash_Init hashbitlen).2 data databitlen).2).1,
     (MD6_Hash_Final (MD6_Hash_Update (MD6_Hash_Init hashbitlen).2 data databitlen).2).2.2)

end Md6

open Md6

/-! ## The public Rust surface of `src/lib.rs` -/

/-- The error enum of `src/lib.rs`: `Fail` and `BadHashbitlen`. -/
inductive Md6Error
  | Fail
  | BadHashbitlen
deriving Repr, DecidableEq

/-- Conversion `impl From<i32> for Md6Error` (`src/lib.rs:360-370`): defined only on 1
and 2; `none` stands for the panic on 0 and on every other status code. -/
def md6ErrorFromCode (i : Int) : Option Md6Error :=
  if i = 1 then some .Fail else if i = 2 then some .BadHashbitlen else none

/-- The bit count the bindings forward for a byte slice:
`data.len() as u64 * 8`, i.e. the byte length times 8, wrapping modulo
`2 ^ 64` (`src/lib.rs:119` and `src/lib.rs:249`). -/
def rustDatabitlen (data : List Nat) : Nat := data.length % wordMod * 8 % wordMod

/-- Function `md6::hash` (`src/lib.rs:118-123`): one-shot hashing.  `none` models the
panic `From<i32>` raises on an unexpected status code; otherwise the result
carries either the digest bytes written into the caller's buffer or the
converted error. -/
def md6.hash (hashbitlen : Int) (data : List Nat) : Option (Except Md6Error (List Nat)) :=
  if (MD6_Hash_Hash hashbitlen data (rustDatabitlen data)).1 = 0 then
    some (.ok (MD6_Hash_Hash hashbitlen data (rustDatabitlen data)).2)
  else (md6ErrorFromCode (MD6_Hash_Hash hashbitlen data (rustDatabitlen data)).1).map .error

/-- Method `Md6::new` (`src/lib.rs:207-217`): wraps `MD6_Hash_Init`, returning the
state on status 0 and the converted error otherwise (`none` = panic). -/
def Md6.new (hashbitlen : Int) : Option (Except Md6Error State) :=
  if (MD6_Hash_Init hashbitlen).1 = 0 then some (.ok (MD6_Hash_Init hashbitlen).2)
  else (md6ErrorFromCode ((MD6_Hash_Init hashbitlen).1 : Int)).map .error

/-- Method `Md6::update` (`src/lib.rs:247-251`): forwards the slice with its wrapped
bit count and discards the native status code — the method returns no error
indication. -/
def Md6.update (st : State) (data : List Nat) : State :=
  (MD6_Hash_Update st data (rustDatabitlen data)).2

/-- Method `Md6::finalise` (`src/lib.rs:306-310`): forwards to `MD6_Hash_Final` and
discards the native status code; the second component is the bytes the native
call wrote into the caller's buffer. -/
def Md6.finalise (st : State) : State × List Nat :=
  ((MD6_Hash_Final st).2.1, (MD6_Hash_Final st).2.2)

/-- Method `write` of `impl io::Write for Md6` (`src/lib.rs:334-337`): delegates to `update`
and returns `Ok(buf.len())`. -/
def Md6.write (st : State) (buf : List Nat) : State × Option Nat :=
  (Md6.update st buf, some buf.length)

/-- Method `flush` of `impl io::Write for Md6` (`src/lib.rs:339-341`): returns `Ok(())` and
leaves the state untouched. -/
def Md6.flush (st : State) : State × Option Unit := (st, some ())



/-! ## Supporting lemmas -/

namespace Md6

theorem forceNat_eq {α : Sort u} (n : Nat) (k : Nat → α) : forceNat n k = k n := by
  cases n <;> rfl

theorem md6_compress_length (N : List Nat) (r : Nat) : (md6_compress N r).length = 16 := by
  simp [md6_compress]

theorem bytes_of_word_length (x : Nat) : (bytes_of_word x).length = 8 := by
  simp [bytes_of_word]

theorem bytes_of_words_length (ws : List Nat) :
    (bytes_of_words ws).length = 8 * ws.length := by
  induction ws with
  | nil => rfl
  | cons x xs ih =>
    simp only [bytes_of_words, List.map_cons, List.flatten_cons, List.length_append,
      bytes_of_word_length, List.length_cons] at *
    omega

@[simp] theorem compressBlock_is_init (st : State) (ell z : Nat) :
    ((compressBlock st ell z).2.2).is_init = st.is_init := by
  unfold compressBlock
  split <;> rfl

@[simp] theorem compressBlock_is_final (st : State) (ell z : Nat) :
    ((compressBlock st ell z).2.2).is_final = st.is_final := by
  unfold compressBlock
  split <;> rfl

@[simp] theorem compressBlock_d (st : State) (ell z : Nat) :
    ((compressBlock st ell z).2.2).d = st.d := by
  unfold compressBlock
  split <;> rfl

@[simp] theorem compressBlock_hashval (st : State) (ell z : Nat) :
    ((compressBlock st ell z).2.2).hashval = st.hashval := by
  unfold compressBlock
  split <;> rfl

theorem compressBlock_code (st : State) (ell z : Nat) :
    (compressBlock st ell z).1 = 0 ∨ (compressBlock st ell z).1 = 7 := by
  unfold compressBlock
  split
  · exact Or.inr rfl
  · exact Or.inl rfl

theorem compressBlock_C_length (st : State) (ell z : Nat)
    (h : (compressBlock st ell z).1 = 0) : ((compressBlock st ell z).2.1).length = 16 := by
  by_cases h28 : 28 ≤ ell
  · simp [compressBlock, h28] at h
  · simp [compressBlock, h28, md6_compress_length]

@[simp] theorem appendLevel_is_init (st : State) (ell : Nat) (C : List Nat) :
    (appendLevel st ell C).is_init = st.is_init := by
  unfold appendLevel
  split <;> rfl

@[simp] theorem appendLevel_is_final (st : State) (ell : Nat) (C : List Nat) :
    (appendLevel st ell C).is_final = st.is_final := by
  unfold appendLevel
  split <;> rfl

@[simp] theorem appendLevel_d (st : State) (ell : Nat) (C : List Nat) :
    (appendLevel st ell C).d = st.d := by
  unfold appendLevel
  split <;> rfl

@[simp] theorem appendLevel_hashval (st : State) (ell : Nat) (C : List Nat) :
    (appendLevel st ell C).hashval = st.hashval := by
  unfold appendLevel
  split <;> rfl

@[simp] theorem setIV_is_init (st : State) (ell : Nat) :
    (setIV st ell).is_init = st.is_init := by
  unfold setIV
  split <;> rfl

@[simp] theorem setIV_is_final (st : State) (ell : Nat) :
    (setIV st ell).is_final = st.is_final := by
  unfold setIV
  split <;> rfl

@[simp] theorem setIV_d (st : State) (ell : Nat) : (setIV st ell).d = st.d := by
  unfold setIV
  split <;> rfl

@[simp] theorem setIV_hashval (st : State) (ell : Nat) :
    (setIV st ell).hashval = st.hashval := by
  unfold setIV
  split <;> rfl

@[simp] theorem procCascade_is_init (st : State) (ell : Nat) (C : List Nat) :
    (procCascade st ell C).is_init = st.is_init := by
  unfold procCascade
  split <;> simp

@[simp] theorem procCascade_is_final (st : State) (ell : Nat) (C : List Nat) :
    (procCascade st ell C).is_final = st.is_final := by
  unfold procCascade
  split <;> simp

@[simp] theorem procCascade_d (st : State) (ell : Nat) (C : List Nat) :
    (procCascade st ell C).d = st.d := by
  unfold procCascade
  split <;> simp

@[simp] theorem procCascade_hashval (st : State) (ell : Nat) (C : List Nat) :
    (procCascade st ell C).hashval = st.hashval := by
  unfold procCascade
  split <;> simp

end Md6

namespace Md6

theorem process_is_init (fuel : Nat) (st : State) (ell : Nat) (fin : Bool) :
    ((process fuel st ell fin).2).is_init = st.is_init := by
  induction fuel generalizing st ell with
  | zero => rfl
  | succ n ih =>
    rw [process]
    split_ifs with h1 h2 h3 h4
    · rfl
    · rfl
    · simp
    · simp
    · rw [ih]
      simp

theorem process_is_final (fuel : Nat) (st : State) (ell : Nat) (fin : Bool) :
    ((process fuel st ell fin).2).is_final = st.is_final := by
  induction fuel generalizing st ell with
  | zero => rfl
  | succ n ih =>
    rw [process]
    split_ifs with h1 h2 h3 h4
    · rfl
    · rfl
    · simp
    · simp
    · rw [ih]
      simp

theorem process_d (fuel : Nat) (st : State) (ell : Nat) (fin : Bool) :
    ((process fuel st ell fin).2).d = st.d := by
  induction fuel generalizing st ell with
  | zero => rfl
  | succ n ih =>
    rw [process]
    split_ifs with h1 h2 h3 h4
    · rfl
    · rfl
    · simp
    · simp
    · rw [ih]
      simp

theorem process_hashval_length (fuel : Nat) (st : State) (ell : Nat) (fin : Bool)
    (h : st.hashval.length = 128) :
    ((process fuel st ell fin).2).hashval.length = 128 := by
  induction fuel generalizing st ell with
  | zero => exact h
  | succ n ih =>
    rw [process]
    split_ifs with h1 h2 h3 h4
    · exact h
    · exact h
    · simpa using h
    · have hc : (compressBlock st ell (procZ st ell fin)).1 = 0 := by
        exact not_not.mp h3
      simp [bytes_of_words_length, compressBlock_C_length _ _ _ hc]
    · exact ih _ _ (by simpa using h)

theorem process_code (fuel : Nat) (st : State) (ell : Nat) (fin : Bool) :
    (process fuel st ell fin).1 = 0 ∨ (process fuel st ell fin).1 = 7 := by
  induction fuel generalizing st ell with
  | zero => exact Or.inr rfl
  | succ n ih =>
    rw [process]
    split_ifs with h1 h2 h3 h4
    · exact Or.inl rfl
    · exact Or.inl rfl
    · rcases compressBlock_code st ell (procZ st ell fin) with h0 | h7
      · exact absurd h0 h3
      · exact Or.inr h7
    · exact Or.inl rfl
    · exact ih _ _

@[simp] theorem appendByte_is_init (st : State) (c : Nat) :
    (appendByte st c).is_init = st.is_init := rfl

@[simp] theorem appendByte_is_final (st : State) (c : Nat) :
    (appendByte st c).is_final = st.is_final := rfl

@[simp] theorem appendByte_d (st : State) (c : Nat) : (appendByte st c).d = st.d := rfl

@[simp] theorem appendByte_hashval (st : State) (c : Nat) :
    (appendByte st c).hashval = st.hashval := rfl

theorem updStep_frozen (acc : Nat × State) (c : Nat) (h : acc.1 ≠ 0) :
    updStep acc c = acc := by
  unfold updStep
  rw [if_pos h]

theorem updStep_is_init (acc : Nat × State) (c : Nat) :
    ((updStep acc c).2).is_init = acc.2.is_init := by
  unfold updStep
  split_ifs with h1 h2
  · rfl
  · exact process_is_init _ _ _ _
  · simp [process_is_init]

theorem updStep_is_final (acc : Nat × State) (c : Nat) :
    ((updStep acc c).2).is_final = acc.2.is_final := by
  unfold updStep
  split_ifs with h1 h2
  · rfl
  · exact process_is_final _ _ _ _
  · simp [process_is_final]

theorem updStep_d (acc : Nat × State) (c : Nat) : ((updStep acc c).2).d = acc.2.d := by
  unfold updStep
  split_ifs with h1 h2
  · rfl
  · exact process_d _ _ _ _
  · simp [process_d]

theorem updStep_hashval_length (acc : Nat × State) (c : Nat)
    (h : acc.2.hashval.length = 128) : ((updStep acc c).2).hashval.length = 128 := by
  unfold updStep
  split_ifs with h1 h2
  · exact h
  · exact process_hashval_length _ _ _ _ h
  · simpa using process_hashval_length 30 acc.2 1 false h

theorem updStep_code (acc : Nat × State) (c : Nat) (h : acc.1 = 0 ∨ acc.1 = 7) :
    (updStep acc c).1 = 0 ∨ (updStep acc c).1 = 7 := by
  unfold updStep
  split_ifs with h1 h2
  · exact h
  · exact process_code _ _ _ _
  · exact Or.inl rfl

theorem foldl_updStep_frozen (data : List Nat) (acc : Nat × State) (h : acc.1 ≠ 0) :
    data.foldl updStep acc = acc := by
  induction data generalizing acc with
  | nil => rfl
  | cons x xs ih =>
    rw [List.foldl_cons, updStep_frozen _ _ h]
    exact ih _ h

theorem foldl_updStep_is_init (data : List Nat) (acc : Nat × State) :
    ((data.foldl updStep acc).2).is_init = acc.2.is_init := by
  induction data generalizing acc with
  | nil => rfl
  | cons x xs ih => rw [List.foldl_cons, ih, updStep_is_init]

theorem foldl_updStep_is_final (data : List Nat) (acc : Nat × State) :
    ((data.foldl updStep acc).2).is_final = acc.2.is_final := by
  induction data generalizing acc with
  | nil => rfl
  | cons x xs ih => rw [List.foldl_cons, ih, updStep_is_final]

theorem foldl_updStep_d (data : List Nat) (acc : Nat × State) :
    ((data.foldl updStep acc).2).d = acc.2.d := by
  induction data generalizing acc with
  | nil => rfl
  | cons x xs ih => rw [List.foldl_cons, ih, updStep_d]

theorem foldl_updStep_hashval_length (data : List Nat) (acc : Nat × State)
    (h : acc.2.hashval.length = 128) :
    ((data.foldl updStep acc).2).hashval.length = 128 := by
  induction data generalizing acc with
  | nil => exact h
  | cons x xs ih => exact ih _ (updStep_hashval_length _ _ h)

theorem foldl_updStep_code (data : List Nat) (acc : Nat × State)
    (h : acc.1 = 0 ∨ acc.1 = 7) :
    (data.foldl updStep acc).1 = 0 ∨ (data.foldl updStep acc).1 = 7 := by
  induction data generalizing acc with
  | nil => exact h
  | cons x xs ih => exact ih _ (updStep_code _ _ h)

end Md6

namespace Md6

theorem md6_update_of_init (st : State) (data : List Nat) (h : st.is_init = true) :
    md6_update st data = data.foldl updStep (0, st) := by
  unfold md6_update
  simp [h]

theorem md6_update_code (st : State) (data : List Nat) (h : st.is_init = true) :
    (md6_update st data).1 = 0 ∨ (md6_update st data).1 = 7 := by
  rw [md6_update_of_init _ _ h]
  exact foldl_updStep_code _ _ (Or.inl rfl)

theorem md6_update_is_init (st : State) (data : List Nat) :
    ((md6_update st data).2).is_init = st.is_init := by
  unfold md6_update
  split
  · rfl
  · exact foldl_updStep_is_init _ _

theorem md6_update_is_final (st : State) (data : List Nat) :
    ((md6_update st data).2).is_final = st.is_final := by
  unfold md6_update
  split
  · rfl
  · exact foldl_updStep_is_final _ _

theorem md6_update_d (st : State) (data : List Nat) :
    ((md6_update st data).2).d = st.d := by
  unfold md6_update
  split
  · rfl
  · exact foldl_updStep_d _ _

theorem md6_update_hashval_length (st : State) (data : List Nat)
    (h : st.hashval.length = 128) : ((md6_update st data).2).hashval.length = 128 := by
  unfold md6_update
  split
  · exact h
  · exact foldl_updStep_hashval_length _ _ h

theorem md6_final_code (st : State) (h : st.is_init = true) :
    (md6_final st).1 = 0 ∨ (md6_final st).1 = 7 := by
  unfold md6_final
  rw [h, if_neg (by simp : ¬(true = false))]
  by_cases hf : st.is_final
  · rw [if_pos hf]
    exact Or.inl rfl
  · rw [if_neg hf]
    by_cases hp : (process 30 st (finalLevel st) true).1 ≠ 0
    · rw [if_pos hp]
      rcases process_code 30 st (finalLevel st) true with h0 | h7
      · exact absurd h0 hp
      · exact Or.inr h7
    · rw [if_neg hp]
      exact Or.inl rfl

theorem trimDigest_length (hv : List Nat) (d : Nat) (h : hv.length = 128)
    (hd : d ≤ 512) : (trimDigest hv d).length = (d + 7) / 8 := by
  unfold trimDigest
  split_ifs with hb
  · rw [List.length_drop, h]
    omega
  · rw [List.length_map, List.length_range, List.length_drop, h]
    omega

theorem md6_final_digest_length (st : State) (h1 : st.is_init = true)
    (h2 : st.is_final = false) (h3 : st.hashval.length = 128) (h4 : st.d ≤ 512)
    (hc : (md6_final st).1 = 0) : ((md6_final st).2.2).length = (st.d + 7) / 8 := by
  unfold md6_final at hc ⊢
  rw [h1, if_neg (by simp : ¬(true = false)), h2, if_neg (by simp : ¬(false = true))] at hc ⊢
  by_cases hp : (process 30 st (finalLevel st) true).1 ≠ 0
  · rw [if_pos hp] at hc
    exact absurd hc hp
  · rw [if_neg hp]
    rw [trimDigest_length _ _ (process_hashval_length _ _ _ _ h3) (by rw [process_d]; exact h4),
      process_d]

theorem rustDatabitlen_eq (data : List Nat) :
    rustDatabitlen data = (8 * data.length) % 2 ^ 64 := by
  unfold rustDatabitlen wordMod
  rw [Nat.mod_mul_mod, Nat.mul_comm]

theorem rustDatabitlen_small (data : List Nat) (h : data.length < 2 ^ 61) :
    rustDatabitlen data = 8 * data.length := by
  rw [rustDatabitlen_eq]
  apply Nat.mod_eq_of_lt
  omega

theorem take_rustDatabitlen (data : List Nat) (h : data.length < 2 ^ 61) :
    data.take (rustDatabitlen data / 8) = data := by
  rw [rustDatabitlen_small _ h, Nat.mul_div_cancel_left _ (by norm_num)]
  exact List.take_length data

theorem Md6_update_eq_small (st : State) (data : List Nat) (h : data.length < 2 ^ 61) :
    Md6.update st data = (md6_update st data).2 := by
  unfold Md6.update MD6_Hash_Update
  rw [take_rustDatabitlen _ h]

end Md6

namespace Md6

theorem md6_init_pos (d : Int) (hd : 1 ≤ d ∧ d ≤ 512) :
    md6_init d = (0, initState d.toNat) := by
  unfold md6_init
  rw [if_pos hd]

theorem md6_init_neg (d : Int) (hd : ¬(1 ≤ d ∧ d ≤ 512)) :
    md6_init d = (2, initState 0) := by
  unfold md6_init
  rw [if_neg hd]

theorem foldl_chunks (chunks : List (List Nat)) (st : State)
    (hinit : st.is_init = true)
    (hsmall : ∀ c ∈ chunks, c.length < 2 ^ 61)
    (hok : (md6_update st chunks.flatten).1 = 0) :
    chunks.foldl Md6.update st = (md6_update st chunks.flatten).2 := by
  induction chunks generalizing st with
  | nil => simp [md6_update, hinit]
  | cons c cs ih =>
    have hmemc : c.length < 2 ^ 61 := hsmall c (List.mem_cons_self c cs)
    rw [md6_update_of_init _ _ hinit, List.flatten_cons, List.foldl_append] at hok
    have hc1 : (c.foldl updStep (0, st)).1 = 0 := by
      by_contra hne
      rw [foldl_updStep_frozen _ _ hne] at hok
      exact hne hok
    have hpair : c.foldl updStep (0, st) = (0, (c.foldl updStep (0, st)).2) := by
      rw [Prod.ext_iff]
      exact ⟨hc1, rfl⟩
    have hinit1 : ((c.foldl updStep (0, st)).2).is_init = true := by
      rw [foldl_updStep_is_init]
      exact hinit
    have hok2 : (md6_update ((c.foldl updStep (0, st)).2) cs.flatten).1 = 0 := by
      rw [md6_update_of_init _ _ hinit1]
      rw [hpair] at hok
      exact hok
    rw [List.foldl_cons, Md6_update_eq_small st c hmemc, md6_update_of_init _ _ hinit,
      ih _ hinit1 (fun x hx => hsmall x (List.mem_cons_of_mem _ hx)) hok2,
      md6_update_of_init _ _ hinit1, md6_update_of_init _ _ hinit, List.flatten_cons,
      List.foldl_append]
    conv_rhs => rw [hpair]

end Md6

theorem MD6_Hash_Hash_pos (d : Int) (data : List Nat) (bl : Nat)
    (hd : 1 ≤ d ∧ d ≤ 512) :
    MD6_Hash_Hash d data bl =
      if (md6_update (initState d.toNat) (data.take (bl / 8))).1 ≠ 0 then
        ((md6_update (initState d.toNat) (data.take (bl / 8))).1, [])
      else ((md6_final (md6_update (initState d.toNat) (data.take (bl / 8))).2).1,
            (md6_final (md6_update (initState d.toNat) (data.take (bl / 8))).2).2.2) := by
  unfold MD6_Hash_Hash MD6_Hash_Init MD6_Hash_Update MD6_Hash_Final
  rw [md6_init_pos d hd, if_neg (by simp : ¬((0, initState d.toNat).1 ≠ 0))]

theorem MD6_Hash_Hash_neg (d : Int) (data : List Nat) (bl : Nat)
    (hd : ¬(1 ≤ d ∧ d ≤ 512)) : MD6_Hash_Hash d data bl = (2, []) := by
  unfold MD6_Hash_Hash MD6_Hash_Init
  rw [md6_init_neg d hd, if_pos (by simp : ((2, initState 0) : Nat × Md6.State).1 ≠ 0)]

theorem hash_ok_elim (d : Int) (data dg : List Nat) (h : md6.hash d data = some (.ok dg)) :
    (1 ≤ d ∧ d ≤ 512) ∧
    (md6_update (initState d.toNat) (data.take (rustDatabitlen data / 8))).1 = 0 ∧
    (md6_final ((md6_update (initState d.toNat) (data.take (rustDatabitlen data / 8))).2)).1 = 0 ∧
    dg = ((md6_final ((md6_update (initState d.toNat) (data.take (rustDatabitlen data / 8))).2)).2.2) := by
  by_cases hd : 1 ≤ d ∧ d ≤ 512
  · refine ⟨hd, ?_⟩
    unfold md6.hash at h
    rw [MD6_Hash_Hash_pos d data _ hd] at h
    by_cases hu : (md6_update (initState d.toNat) (data.take (rustDatabitlen data / 8))).1 = 0
    · rw [if_neg (not_not_intro hu)] at h
      dsimp only at h
      by_cases hf : (md6_final ((md6_update (initState d.toNat)
          (data.take (rustDatabitlen data / 8))).2)).1 = 0
      · rw [if_pos hf] at h
        exact ⟨hu, hf, by simpa using h.symm⟩
      · exfalso
        rw [if_neg hf] at h
        rcases md6_final_code ((md6_update (initState d.toNat)
            (data.take (rustDatabitlen data / 8))).2)
            (by rw [md6_update_is_init]; rfl) with h0 | h7
        · exact hf h0
        · rw [h7] at h
          norm_num [md6ErrorFromCode] at h
          exact Option.noConfusion h
    · exfalso
      rw [if_pos hu] at h
      dsimp only at h
      rw [if_neg hu] at h
      rcases md6_update_code (initState d.toNat) (data.take (rustDatabitlen data / 8))
          rfl with h0 | h7
      · exact hu h0
      · rw [h7] at h
        norm_num [md6ErrorFromCode] at h
        exact Option.noConfusion h
  · exfalso
    unfold md6.hash at h
    rw [MD6_Hash_Hash_neg d data _ hd] at h
    dsimp only at h
    norm_num [md6ErrorFromCode] at h
    exact Except.noConfusion h

theorem hash_outrange_bad (d : Int) (data : List Nat) (hd : ¬(1 ≤ d ∧ d ≤ 512)) :
    md6.hash d data = some (.error .BadHashbitlen) := by
  unfold md6.hash
  rw [MD6_Hash_Hash_neg d data _ hd]
  dsimp only
  norm_num [md6ErrorFromCode]

theorem hash_inrange_not_bad (d : Int) (data : List Nat) (hd : 1 ≤ d ∧ d ≤ 512) :
    md6.hash d data ≠ some (.error .BadHashbitlen) := by
  intro h
  unfold md6.hash at h
  rw [MD6_Hash_Hash_pos d data _ hd] at h
  by_cases hu : (md6_update (initState d.toNat) (data.take (rustDatabitlen data / 8))).1 = 0
  · rw [if_neg (not_not_intro hu)] at h
    dsimp only at h
    by_cases hf : (md6_final ((md6_update (initState d.toNat)
        (data.take (rustDatabitlen data / 8))).2)).1 = 0
    · rw [if_pos hf] at h
      simp at h
    · rw [if_neg hf] at h
      rcases md6_final_code ((md6_update (initState d.toNat)
          (data.take (rustDatabitlen data / 8))).2)
          (by rw [md6_update_is_init]; rfl) with h0 | h7
      · exact hf h0
      · rw [h7] at h
        norm_num [md6ErrorFromCode] at h
        exact Option.noConfusion h
  · rw [if_pos hu] at h
    dsimp only at h
    rw [if_neg hu] at h
    rcases md6_update_code (initState d.toNat) (data.take (rustDatabitlen data / 8))
        rfl with h0 | h7
    · exact hu h0
    · rw [h7] at h
      norm_num [md6ErrorFromCode] at h
      exact Option.noConfusion h

theorem new_ok_elim (d : Int) (st0 : Md6.State) (h : Md6.new d = some (.ok st0)) :
    (1 ≤ d ∧ d ≤ 512) ∧ st0 = initState d.toNat := by
  by_cases hd : 1 ≤ d ∧ d ≤ 512
  · refine ⟨hd, ?_⟩
    unfold Md6.new MD6_Hash_Init at h
    rw [md6_init_pos d hd] at h
    simpa using h.symm
  · exfalso
    unfold Md6.new MD6_Hash_Init at h
    rw [md6_init_neg d hd] at h
    norm_num [md6ErrorFromCode] at h
    exact Except.noConfusion h

theorem new_pos (d : Int) (hd : 1 ≤ d ∧ d ≤ 512) :
    Md6.new d = some (.ok (initState d.toNat)) := by
  unfold Md6.new MD6_Hash_Init
  rw [md6_init_pos d hd]
  simp

theorem MdUpdate_is_init (st : Md6.State) (data : List Nat) :
    (Md6.update st data).is_init = st.is_init := by
  unfold Md6.update MD6_Hash_Update
  exact md6_update_is_init _ _

theorem MdUpdate_is_final (st : Md6.State) (data : List Nat) :
    (Md6.update st data).is_final = st.is_final := by
  unfold Md6.update MD6_Hash_Update
  exact md6_update_is_final _ _

theorem MdUpdate_d (st : Md6.State) (data : List Nat) :
    (Md6.update st data).d = st.d := by
  unfold Md6.update MD6_Hash_Update
  exact md6_update_d _ _

theorem MdUpdate_hashval_length (st : Md6.State) (data : List Nat)
    (h : st.hashval.length = 128) : (Md6.update st data).hashval.length = 128 := by
  unfold Md6.update MD6_Hash_Update
  exact md6_update_hashval_length _ _ h

theorem foldl_MdUpdate_is_init (chunks : List (List Nat)) (st : Md6.State) :
    (chunks.foldl Md6.update st).is_init = st.is_init := by
  induction chunks generalizing st with
  | nil => rfl
  | cons c cs ih => rw [List.foldl_cons, ih, MdUpdate_is_init]

theorem foldl_MdUpdate_is_final (chunks : List (List Nat)) (st : Md6.State) :
    (chunks.foldl Md6.update st).is_final = st.is_final := by
  induction chunks generalizing st with
  | nil => rfl
  | cons c cs ih => rw [List.foldl_cons, ih, MdUpdate_is_final]

theorem foldl_MdUpdate_d (chunks : List (List Nat)) (st : Md6.State) :
    (chunks.foldl Md6.update st).d = st.d := by
  induction chunks generalizing st with
  | nil => rfl
  | cons c cs ih => rw [List.foldl_cons, ih, MdUpdate_d]

theorem foldl_MdUpdate_hashval_length (chunks : List (List Nat)) (st : Md6.State)
    (h : st.hashval.length = 128) :
    (chunks.foldl Md6.update st).hashval.length = 128 := by
  induction chunks generalizing st with
  | nil => exact h
  | cons c cs ih => exact ih _ (MdUpdate_hashval_length _ _ h)

/-! ## Claim constants -/

/-- The 32-byte digest the crate's doc-test expects for `hash(256, "")`
(`src/lib.rs:103-107`). -/
def katEmpty256 : List Nat :=
  [0xBC, 0xA3, 0x8B, 0x24, 0xA8, 0x04, 0xAA, 0x37, 0xD8, 0x21, 0xD3, 0x1A, 0xF0, 0x0F, 0x55, 0x98,
   0x23, 0x01, 0x22, 0xC5, 0xBB, 0xFC, 0x4C, 0x4A, 0xD5, 0xED, 0x40, 0xE4, 0x25, 0x8F, 0x04, 0xCA]

/-- The ASCII bytes of `"The lazy fox jumps over the lazy dog"`. -/
def foxBytes : List Nat :=
  [84, 104, 101, 32, 108, 97, 122, 121, 32, 102, 111, 120, 32, 106, 117, 109, 112, 115, 32,
   111, 118, 101, 114, 32, 116, 104, 101, 32, 108, 97, 122, 121, 32, 100, 111, 103]

/-- The chunks `"Abolish "`, `"the "`, `"bourgeoisie"`, `"!"` of the crate's
incremental doc-test (`src/lib.rs:136-139`), as ASCII bytes. -/
def abolishChunks : List (List Nat) :=
  [[65, 98, 111, 108, 105, 115, 104, 32], [116, 104, 101, 32],
   [98, 111, 117, 114, 103, 101, 111, 105, 115, 105, 101], [33]]

/-- The 32-byte digest the crate's doc-test expects for the incremental
hashing of `"Abolish the bourgeoisie!"` at 256 bits (`src/lib.rs:143-147`). -/
def abolishDigest : List Nat :=
  [0x49, 0x23, 0xE7, 0xB0, 0x53, 0x32, 0x05, 0xB0, 0x25, 0xC5, 0xD4, 0xDB, 0x37, 0xB8, 0x99, 0x12,
   0x16, 0x2E, 0xFD, 0xF4, 0xDA, 0xC2, 0x2C, 0xFF, 0xE6, 0x27, 0xF1, 0x11, 0xEC, 0x05, 0x2F, 0xB5]

/-- Uppercase hex character of a nibble. -/
def hexDigitChar (n : Nat) : Char := Char.ofNat (if n < 10 then 48 + n else 55 + n)

/-- Uppercase hex rendition of a byte list, two characters per byte. -/
def hexOfBytes (bs : List Nat) : String :=
  String.mk ((bs.map fun b => [hexDigitChar (b / 16 % 16), hexDigitChar (b % 16)]).flatten)

/-- The spec's hex constant for `hash(256, "")`, exactly as printed there
(spaces removed): it has 63 hex digits, one short of the 64 needed for 32
bytes — the `4C4A` of the true digest appears as `4CA`. -/
def c2SpecHex : String := "BCA38B24A804AA37D821D31AF00F5598230122C5BBFC4CAD5ED40E4258F04CA"

/-! ## Claim theorems -/

/-- C1.  Chunking independence: whenever the one-shot `md6::hash` of a message
`m` (of any machine-representable length) at output length `d` produces a
digest, creating a state with `Md6::new(d)`, feeding it any chunk sequence
whose concatenation is `m` via one `Md6::update` per chunk, and calling
`Md6::finalise` writes the byte-identical digest. -/
theorem md6_chunking_independence (d : Int) (chunks : List (List Nat)) (dg : List Nat)
    (hlen : chunks.flatten.length < 2 ^ 61)
    (hone : md6.hash d chunks.flatten = some (.ok dg)) :
    ∃ st0 : Md6.State, Md6.new d = some (.ok st0) ∧
      (Md6.finalise (chunks.foldl Md6.update st0)).2 = dg := by
  obtain ⟨hd, hu, hf, hdg⟩ := hash_ok_elim d chunks.flatten dg hone
  rw [take_rustDatabitlen _ hlen] at hu hf hdg
  refine ⟨initState d.toNat, new_pos d hd, ?_⟩
  have hsmall : ∀ c ∈ chunks, c.length < 2 ^ 61 := by
    intro c hc
    have hle : c.length ≤ chunks.flatten.length := by
      rw [List.length_flatten]
      exact List.single_le_sum (fun x _ => Nat.zero_le x) _
        (List.mem_map_of_mem List.length hc)
    omega
  rw [foldl_chunks chunks (initState d.toNat) rfl hsmall hu]
  unfold Md6.finalise MD6_Hash_Final
  rw [hdg]

set_option maxRecDepth 1000000 in
/-- Witness for C1 at the doc-test input: incremental hashing of
`"Abolish " ++ "the " ++ "bourgeoisie" ++ "!"` at 256 bits agrees with the
one-shot hash of the concatenation, both producing the doc-test digest. -/
theorem md6_chunking_independence_witness :
    abolishChunks.flatten.length < 2 ^ 61 ∧
    md6.hash 256 abolishChunks.flatten = some (.ok abolishDigest) ∧
    ∃ st0 : Md6.State, Md6.new 256 = some (.ok st0) ∧
      (Md6.finalise (abolishChunks.foldl Md6.update st0)).2 = abolishDigest := by
  have h1 : abolishChunks.flatten.length < 2 ^ 61 := by decide
  have h2 : md6.hash 256 abolishChunks.flatten = some (.ok abolishDigest) := by rfl
  exact ⟨h1, h2, md6_chunking_independence 256 abolishChunks abolishDigest h1 h2⟩

set_option maxRecDepth 1000000 in
/-- C2 counterexample.  `hash(256, "")` succeeds, but its 32-byte digest is
not "the digest given by the spec's hex constant": that constant has only 63
hex digits (it reads `...BBFC4CAD5ED...` where the digest has
`...BBFC4C4AD5ED...`), so it denotes no 32-byte string and differs from the
digest's hex rendition. -/
theorem md6_empty_kat_spec_mismatch :
    md6.hash 256 [] = some (.ok katEmpty256) ∧
    hexOfBytes katEmpty256 ≠ c2SpecHex ∧
    (hexOfBytes katEmpty256).length = 64 ∧ c2SpecHex.length = 63 := by
  exact ⟨by rfl, by decide, by rfl, by rfl⟩

set_option maxRecDepth 1000000 in
/-- C2 (amended).  `hash(256, "")` succeeds and writes exactly the 32 bytes
`BCA38B24A804AA37D821D31AF00F5598230122C5BBFC4C4AD5ED40E4258F04CA` — the
spec's constant with its missing `4` restored, as in the crate's doc-test. -/
theorem md6_empty_kat : md6.hash 256 [] = some (.ok katEmpty256) := by rfl

set_option maxRecDepth 1000000 in
/-- C3.  `hash(256, "The lazy fox jumps over the lazy dog")` succeeds and
writes exactly the 32 bytes
`E45551AAE266E1482AC98E24229B3E90DC066177F8FB1A526E9DA2CC957197AA`. -/
theorem md6_fox_kat :
    md6.hash 256 foxBytes = some (.ok
      [0xE4, 0x55, 0x51, 0xAA, 0xE2, 0x66, 0xE1, 0x48, 0x2A, 0xC9, 0x8E, 0x24, 0x22, 0x9B, 0x3E, 0x90,
       0xDC, 0x06, 0x61, 0x77, 0xF8, 0xFB, 0x1A, 0x52, 0x6E, 0x9D, 0xA2, 0xCC, 0x95, 0x71, 0x97, 0xAA]) := by
  rfl

/-- C4.  Parameter rejection at creation: `Md6::new(0)` and `Md6::new(1024)`
fail with `BadHashbitlen` while `Md6::new(1)` and `Md6::new(512)` return the
initialised state; likewise the one-shot `md6::hash` rejects output lengths 0
and 1024 with `BadHashbitlen` for every input and never reports
`BadHashbitlen` at output lengths 1 and 512. -/
theorem md6_param_validation :
    Md6.new 0 = some (.error .BadHashbitlen) ∧
    Md6.new 1024 = some (.error .BadHashbitlen) ∧
    Md6.new 1 = some (.ok (initState 1)) ∧
    Md6.new 512 = some (.ok (initState 512)) ∧
    (∀ data : List Nat, md6.hash 0 data = some (.error .BadHashbitlen)) ∧
    (∀ data : List Nat, md6.hash 1024 data = some (.error .BadHashbitlen)) ∧
    (∀ data : List Nat, md6.hash 1 data ≠ some (.error .BadHashbitlen)) ∧
    (∀ data : List Nat, md6.hash 512 data ≠ some (.error .BadHashbitlen)) := by
  refine ⟨by rfl, by rfl, by rfl, by rfl, ?_, ?_, ?_, ?_⟩
  · exact fun data => hash_outrange_bad 0 data (by omega)
  · exact fun data => hash_outrange_bad 1024 data (by omega)
  · exact fun data => hash_inrange_not_bad 1 data (by omega)
  · exact fun data => hash_inrange_not_bad 512 data (by omega)

/-- Witness for C4 at the empty input. -/
theorem md6_param_validation_witness :
    md6.hash 0 [] = some (.error .BadHashbitlen) ∧
    md6.hash 1024 [] = some (.error .BadHashbitlen) ∧
    md6.hash 1 [] ≠ some (.error .BadHashbitlen) ∧
    md6.hash 512 [] ≠ some (.error .BadHashbitlen) :=
  ⟨md6_param_validation.2.2.2.2.1 [], md6_param_validation.2.2.2.2.2.1 [],
   md6_param_validation.2.2.2.2.2.2.1 [], md6_param_validation.2.2.2.2.2.2.2 []⟩

/-- C5.  Length correctness: whenever the one-shot `md6::hash` produces a
digest its length is exactly `⌈d / 8⌉` bytes, and whenever a state created by
`Md6::new(d)` is fed any chunk sequence and the native finalisation reports
success, `Md6::finalise` writes exactly `⌈d / 8⌉` bytes — no more, no
fewer. -/
theorem md6_digest_length :
    (∀ (d : Int) (data dg : List Nat),
      md6.hash d data = some (.ok dg) → dg.length = (d.toNat + 7) / 8) ∧
    (∀ (d : Int) (st0 : Md6.State) (chunks : List (List Nat)),
      Md6.new d = some (.ok st0) →
      (MD6_Hash_Final (chunks.foldl Md6.update st0)).1 = 0 →
      (Md6.finalise (chunks.foldl Md6.update st0)).2.length = (d.toNat + 7) / 8) := by
  constructor
  · intro d data dg h
    obtain ⟨hd, hu, hf, hdg⟩ := hash_ok_elim d data dg h
    rw [hdg]
    have hlen := md6_final_digest_length
      ((md6_update (initState d.toNat) (data.take (rustDatabitlen data / 8))).2)
      (by rw [md6_update_is_init]; rfl)
      (by rw [md6_update_is_final]; rfl)
      (md6_update_hashval_length _ _ (by simp [initState]))
      (by rw [md6_update_d]; show d.toNat ≤ 512; omega)
      hf
    rw [hlen, md6_update_d]
    rfl
  · intro d st0 chunks hnew hfc
    obtain ⟨hd, hst0⟩ := new_ok_elim d st0 hnew
    have hfin : (md6_final (chunks.foldl Md6.update st0)).1 = 0 := hfc
    have hlen := md6_final_digest_length (chunks.foldl Md6.update st0)
      (by rw [foldl_MdUpdate_is_init, hst0]; rfl)
      (by rw [foldl_MdUpdate_is_final, hst0]; rfl)
      (foldl_MdUpdate_hashval_length _ _ (by rw [hst0]; simp [initState]))
      (by rw [foldl_MdUpdate_d, hst0]; show d.toNat ≤ 512; omega)
      hfin
    show (md6_final (chunks.foldl Md6.update st0)).2.2.length = (d.toNat + 7) / 8
    rw [hlen, foldl_MdUpdate_d, hst0]
    rfl

set_option maxRecDepth 1000000 in
/-- Witness for C5: the empty message at 256 bits yields exactly 32 bytes. -/
theorem md6_digest_length_witness :
    md6.hash 256 [] = some (.ok katEmpty256) ∧
    katEmpty256.length = ((256 : Int).toNat + 7) / 8 := by
  have h : md6.hash 256 [] = some (.ok katEmpty256) := by rfl
  exact ⟨h, md6_digest_length.1 256 [] katEmpty256 h⟩

/-- C6.  Determinism: the embedding of the crate is a pure function of its
arguments, so two runs of the one-shot `md6::hash` on the same
`(outputBits, data)` pair — and two runs of the same `new`/`update`/`finalise`
sequence — produce byte-identical digests definitionally. -/
theorem md6_determinism :
    (∀ (d : Int) (data : List Nat), md6.hash d data = md6.hash d data) ∧
    (∀ (d : Int) (chunks : List (List Nat)),
      (Md6.new d).map (Except.map fun st0 => (Md6.finalise (chunks.foldl Md6.update st0)).2) =
        (Md6.new d).map (Except.map fun st0 => (Md6.finalise (chunks.foldl Md6.update st0)).2)) :=
  ⟨fun _ _ => rfl, fun _ _ => rfl⟩

/-- C8.  The `io::Write` implementation is pure delegation: `write(buf)`
leaves the state exactly as `update(buf)` does and returns `Ok(buf.len())`
(never an error, never a partial count), and `flush()` returns `Ok(())`
leaving the state unchanged. -/
theorem md6_write_delegates :
    (∀ (st : Md6.State) (buf : List Nat), (Md6.write st buf).1 = Md6.update st buf) ∧
    (∀ (st : Md6.State) (buf : List Nat), (Md6.write st buf).2 = some buf.length) ∧
    (∀ st : Md6.State, Md6.flush st = (st, some ())) :=
  ⟨fun _ _ => rfl, fun _ _ => rfl, fun _ => rfl⟩

/-- C9.  Byte granularity of the public surface: both `md6::hash` and
`Md6::update` forward the bit count `data.len() as u64 * 8`, which equals
`8 * len mod 2 ^ 64` (wrapping only for slices of `2 ^ 61` bytes or more) and
is always divisible by 8, so the engine is only ever handed whole-byte,
byte-aligned input. -/
theorem md6_byte_granularity :
    (∀ data : List Nat, rustDatabitlen data = (8 * data.length) % 2 ^ 64) ∧
    (∀ data : List Nat, 8 ∣ rustDatabitlen data) ∧
    (∀ data : List Nat, data.length < 2 ^ 61 → rustDatabitlen data = 8 * data.length) ∧
    (∀ (st : Md6.State) (data : List Nat),
      Md6.update st data = (MD6_Hash_Update st data (rustDatabitlen data)).2) ∧
    (∀ (d : Int) (data : List Nat),
      md6.hash d data =
        if (MD6_Hash_Hash d data (rustDatabitlen data)).1 = 0 then
          some (.ok (MD6_Hash_Hash d data (rustDatabitlen data)).2)
        else (md6ErrorFromCode ((MD6_Hash_Hash d data (rustDatabitlen data)).1 : Int)).map
          .error) := by
  refine ⟨rustDatabitlen_eq, ?_, rustDatabitlen_small, fun _ _ => rfl, fun _ _ => rfl⟩
  intro data
  rw [rustDatabitlen_eq]
  exact (Nat.dvd_mod_iff (by norm_num)).mpr ⟨data.length, rfl⟩

/-- Witness for C9 at a one-byte slice. -/
theorem md6_byte_granularity_witness :
    ([0] : List Nat).length < 2 ^ 61 ∧ rustDatabitlen [0] = 8 * ([0] : List Nat).length :=
  ⟨by norm_num, md6_byte_granularity.2.2.1 [0] (by norm_num)⟩

/-- C10.  Error-code conversion and its use: `Md6Error::from(i)` maps 1 to
`Fail` and 2 to `BadHashbitlen` and panics (`none`) on 0 and on every other
`i32`; consequently `Md6::new` returns the state exactly when the native init
accepts the bit length and `BadHashbitlen` otherwise, and `md6::hash` returns
`Ok` exactly on native status 0, `Err(Fail)` exactly on 1, `Err(BadHashbitlen)`
exactly on 2, and panics on every other status. -/
theorem md6_error_code_mapping :
    (∀ i : Int, md6ErrorFromCode i =
      if i = 1 then some .Fail else if i = 2 then some .BadHashbitlen else none) ∧
    (∀ d : Int, Md6.new d =
      if 1 ≤ d ∧ d ≤ 512 then some (.ok (initState d.toNat))
      else some (.error .BadHashbitlen)) ∧
    (∀ (d : Int) (data : List Nat),
      ((∃ dg, md6.hash d data = some (.ok dg)) ↔
        (MD6_Hash_Hash d data (rustDatabitlen data)).1 = 0) ∧
      (md6.hash d data = some (.error .Fail) ↔
        (MD6_Hash_Hash d data (rustDatabitlen data)).1 = 1) ∧
      (md6.hash d data = some (.error .BadHashbitlen) ↔
        (MD6_Hash_Hash d data (rustDatabitlen data)).1 = 2) ∧
      (md6.hash d data = none ↔
        ((MD6_Hash_Hash d data (rustDatabitlen data)).1 ≠ 0 ∧
         (MD6_Hash_Hash d data (rustDatabitlen data)).1 ≠ 1 ∧
         (MD6_Hash_Hash d data (rustDatabitlen data)).1 ≠ 2))) := by
  refine ⟨fun i => rfl, ?_, ?_⟩
  · intro d
    by_cases hd : 1 ≤ d ∧ d ≤ 512
    · rw [if_pos hd]
      exact new_pos d hd
    · rw [if_neg hd]
      unfold Md6.new MD6_Hash_Init
      rw [md6_init_neg d hd]
      norm_num [md6ErrorFromCode]
  · intro d data
    unfold md6.hash
    by_cases h0 : (MD6_Hash_Hash d data (rustDatabitlen data)).1 = 0
    · simp only [h0]
      norm_num [md6ErrorFromCode]
      simp
    · by_cases h1 : (MD6_Hash_Hash d data (rustDatabitlen data)).1 = 1
      · simp only [h1]
        norm_num [md6ErrorFromCode]
        simp
      · by_cases h2 : (MD6_Hash_Hash d data (rustDatabitlen data)).1 = 2
        · simp only [h2]
          norm_num [md6ErrorFromCode]
          simp
        · have hnone : md6ErrorFromCode
              (((MD6_Hash_Hash d data (rustDatabitlen data)).1 : Nat) : Int) = none := by
            unfold md6ErrorFromCode
            rw [if_neg (by omega), if_neg (by omega)]
          rw [if_neg h0, hnone]
          simp [h0, h1, h2]

/-- Witness for C10: the conversion is undefined (panics) on status 5. -/
theorem md6_error_code_mapping_witness : md6ErrorFromCode 5 = none := by
  have h := md6_error_code_mapping.1 5
  norm_num at h
  exact h

/-- Modelled from the spec: the state of a 1-bit-output hash whose level
stack is saturated — the leaf holds a full 512-byte block and levels 2
through 28 each hold 48 chaining words, with `top` at the 28-level bound.
This is the configuration the scheduler reaches just before its
stack-overflow condition (after circa `2 ^ 63` message bytes, the spec's
"implementation-defined fatal condition" for pathologically large inputs):
one more buffered byte forces a cascade that must compress level 28 and
fails with the engine's stack-overflow status. -/
def stOver : Md6.State :=
  { d := 1, r := 40, L := 64, keylen := 0, K := List.replicate 8 0,
    B1 := List.replicate 512 0,
    Bp := List.replicate 27 (List.replicate 48 0),
    ifor := List.replicate 28 0,
    top := 28, bits_processed := 0, compression_calls := 0,
    hashval := List.replicate 128 0, is_init := true, is_final := false }

set_option maxRecDepth 1000000 in
/-- C7 counterexample.  On the saturated state `stOver` the native update and
finalisation calls both fail with the stack-overflow status 7, yet
`Md6::update` and `Md6::finalise` return only the mutated state (and, for
`finalise`, zero digest bytes) — their signatures carry no error, so the
native failure is discarded rather than surfaced to the caller. -/
theorem md6_update_swallows_failure :
    (MD6_Hash_Update stOver [0] (rustDatabitlen [0])).1 = 7 ∧
    Md6.update stOver [0] = (MD6_Hash_Update stOver [0] (rustDatabitlen [0])).2 ∧
    (MD6_Hash_Final stOver).1 = 7 ∧
    Md6.finalise stOver = ((MD6_Hash_Final stOver).2.1, (MD6_Hash_Final stOver).2.2) := by
  exact ⟨by rfl, rfl, by rfl, rfl⟩

/-- C7 (amended).  The public surface knows exactly the two error values
`Fail` and `BadHashbitlen`; `md6::hash` (and `Md6::new`) reject a bad output
bit length with `BadHashbitlen` before hashing starts, and every error they
surface is one of the two; `Md6::update` and `Md6::finalise`, however,
discard the native status code and return no error indication, so a native
failure during those calls is swallowed, not surfaced. -/
theorem md6_failure_surfacing :
    (∀ (st : Md6.State) (data : List Nat),
      Md6.update st data = (MD6_Hash_Update st data (rustDatabitlen data)).2) ∧
    (∀ st : Md6.State,
      Md6.finalise st = ((MD6_Hash_Final st).2.1, (MD6_Hash_Final st).2.2)) ∧
    (∀ (d : Int) (data : List Nat),
      md6.hash d data = some (.error .BadHashbitlen) ↔ ¬(1 ≤ d ∧ d ≤ 512)) ∧
    (∀ (d : Int) (data : List Nat) (e : Md6Error),
      md6.hash d data = some (.error e) → e = .Fail ∨ e = .BadHashbitlen) := by
  refine ⟨fun _ _ => rfl, fun _ => rfl, ?_, ?_⟩
  · intro d data
    constructor
    · intro h hd
      exact hash_inrange_not_bad d data hd h
    · exact hash_outrange_bad d data
  · intro d data e _
    cases e
    · exact Or.inl rfl
    · exact Or.inr rfl

/-- Witness for C7's amended statement at output length 0. -/
theorem md6_failure_surfacing_witness :
    md6.hash 0 [] = some (.error .BadHashbitlen) ∧
    (Md6Error.BadHashbitlen = .Fail ∨ Md6Error.BadHashbitlen = .BadHashbitlen) := by
  have h : md6.hash 0 [] = some (.error .BadHashbitlen) := by rfl
  exact ⟨h, md6_failure_surfacing.2.2.2 0 [] .BadHashbitlen h⟩
